import Mathlib

/-!
Shallow embedding of `src/main/services/protocolmanager/index.ts` from the
ytmdesktop repository.

The file models the three cores the spec describes:

* the Path Sandbox Guard `isSafePath` (source lines 139-144), built on the
  Node.js posix `path` primitives `path.resolve`, `path.relative` and
  `path.isAbsolute`, which are embedded below at the character/segment level
  following the algorithms of `node:path` (posix flavour);
* the Local Resource Router `handleYTMDAppProtocol` (lines 87-137) together
  with its Asset Resolver steps (host table, index substitution, assets
  regex rewrite, leading separator strip);
* the Deep-Link Command Dispatcher `handleYTMDProtocol` (lines 56-85), with
  the JavaScript `String.split` embedded at the character level.

JavaScript semantics that matter and are modelled explicitly:

* `path.resolve` validates every argument it reaches; when the `host` switch
  falls through, `rootPath` stays `undefined` and
  `path.resolve(undefined, requestedPath)` throws a `TypeError` (the loop only
  stops early at an absolute argument, and `desiredPath` has had all leading
  separators stripped, so it is never absolute).  The router outcome type
  therefore has a `thrown` constructor.
* the truthiness test `if (relativePath && ...)` treats the empty string as
  false;
* `path.resolve` consults the process working directory when no argument is
  absolute, so the embedding threads an explicit `cwd` parameter.

Machine model notes: paths are plain Lean `String`s (lists of characters); the
posix flavour of `node:path` is used, matching the separators the source
handles (`/` in the path module, both `/` and `\\` in the explicit regexes).
-/

/-- Split a character list on `/`, dropping empty segments: the segmentation
performed by the `normalizeString` helper of `node:path`.  `cur` is the
reversed accumulator of the current segment. -/
def chSegsAux : List Char → List Char → List String
  | cur, [] => if cur = [] then [] else [⟨cur.reverse⟩]
  | cur, c :: rest =>
    if c = '/' then
      if cur = [] then chSegsAux [] rest else ⟨cur.reverse⟩ :: chSegsAux [] rest
    else chSegsAux (c :: cur) rest

/-- Join segments with `/` separators (no leading or trailing separator). -/
def joinCh : List String → List Char
  | [] => []
  | [s] => s.data
  | s :: rest => s.data ++ '/' :: joinCh rest

/-- One step of the `normalizeString` segment loop from `node:path`:
skip `""` and `"."`; on `".."` pop the previous segment, or (only when
`allowAbove` is set, i.e. the path being normalized is relative) accumulate a
leading `".."`; otherwise push the segment.  The stack is kept reversed. -/
def normStep (allowAbove : Bool) (stack : List String) (seg : String) : List String :=
  if seg = "" ∨ seg = "." then stack
  else if seg = ".." then
    match stack with
    | [] => if allowAbove then [".."] else []
    | top :: rest => if top = ".." then (if allowAbove then ".." :: stack else stack) else rest
  else seg :: stack

/-- Run the `normalizeString` loop over a list of segments, from a given
(reversed) stack. -/
def normStack (allowAbove : Bool) (stack : List String) (segs : List String) : List String :=
  segs.foldl (normStep allowAbove) stack

/-- Normalized segment list of a path (in order). -/
def normSegs (allowAbove : Bool) (segs : List String) : List String :=
  (normStack allowAbove [] segs).reverse

/-- The argument-accumulation loop of posix `path.resolve`, on the reversed
argument list (last argument first, as the JavaScript loop iterates from the
end): empty arguments are skipped, an absolute argument stops the loop, and
each processed argument is followed by a `/`.  Returns the accumulated raw
characters and whether an absolute argument was reached. -/
def rawRev : List String → List Char × Bool
  | [] => ([], false)
  | p :: rest =>
    match p.data with
    | [] => rawRev rest
    | c :: _ =>
      if c = '/' then (p.data ++ ['/'], true)
      else
        let (acc, ab) := rawRev rest
        (acc ++ p.data ++ ['/'], ab)

/-- Posix `path.resolve(...args)` with the process working directory made
explicit (`node` appends the cwd as the final fallback argument). -/
def posixResolve (cwd : String) (args : List String) : String :=
  let (raw, ab) := rawRev (args.reverse ++ [cwd])
  let segs := normSegs (!ab) (chSegsAux [] raw)
  if ab then ⟨'/' :: joinCh segs⟩
  else if segs = [] then "." else ⟨joinCh segs⟩

/-- Posix `path.isAbsolute`: nonempty and starting with `/`. -/
def pIsAbs (s : String) : Bool :=
  match s.data with
  | c :: _ => c == '/'
  | [] => false

/-- JavaScript `String.prototype.startsWith`. -/
def jsStartsWith (s pre : String) : Bool := pre.data.isPrefixOf s.data

/-- Length of the longest common segment run of two segment lists. -/
def cpl : List String → List String → Nat
  | a :: as1, b :: bs1 => if a = b then cpl as1 bs1 + 1 else 0
  | _, _ => 0

/-- Segment form of the result of posix `path.relative` on two resolved
paths: climb out of the uncommon part of `fs` and descend into the uncommon
part of `ts`. -/
def relSegs (fs ts : List String) : List String :=
  List.replicate (fs.length - cpl fs ts) ".." ++ ts.drop (cpl fs ts)

/-- Posix `path.relative(from, to)`: equal inputs (before or after resolving)
give the empty string, otherwise both sides are resolved and the common-root
comparison runs; on resolved (absolute, normalized) paths the character scan
of `node:path` computes exactly the segment formula `relSegs`. -/
def posixRelative (cwd fromPath toPath : String) : String :=
  if fromPath = toPath then ""
  else
    let f := posixResolve cwd [fromPath]
    let t := posixResolve cwd [toPath]
    if f = t then ""
    else ⟨joinCh (relSegs (chSegsAux [] f.data) (chSegsAux [] t.data))⟩

/-- The boolean expression of the guard, on an already computed relative path
(the JavaScript `relativePath && !relativePath.startsWith("..") &&
!path.isAbsolute(relativePath)`, with string truthiness made explicit). -/
def safeCond (rel : String) : Bool :=
  (!(rel == "")) && (!(jsStartsWith rel "..")) && (!(pIsAbs rel))

/-- `ProtocolManager.isSafePath` (source lines 139-144). -/
def isSafePath (cwd rootPath requestedPath : String) : Bool :=
  let pathToServe := posixResolve cwd [rootPath, requestedPath]
  let relativePath := posixRelative cwd rootPath pathToServe
  (!(relativePath == "")) && (!(jsStartsWith relativePath "..")) && (!(pIsAbs relativePath))

/-- A character the regexes of the source treat as a path separator
(`[/\\]`). -/
def isSepChar (c : Char) : Bool := c == '/' || c == '\\'

/-- Drop every leading separator character (`replace(/^[/\\]+/, "")` on a
character list, and the `[/\\]+` parts of the assets regex). -/
def dropSeps : List Char → List Char
  | [] => []
  | c :: rest => if isSepChar c then dropSeps rest else c :: rest

/-- Match one `assets[/\\]+` repetition of the assets regex: the literal
`assets` followed by at least one separator; returns the remainder after the
(greedily consumed) separators. -/
def assetsSeg : List Char → Option (List Char)
  | 'a' :: 's' :: 's' :: 'e' :: 't' :: 's' :: c :: rest =>
    if isSepChar c then some (dropSeps rest) else none
  | _ => none

/-- Iterate `assetsSeg` while it matches (fuelled by the list length; each
match consumes at least seven characters, so the fuel never runs out). -/
def assetsRepsGo : Nat → List Char → List Char
  | 0, l => l
  | n + 1, l =>
    match assetsSeg l with
    | some rest => assetsRepsGo n rest
    | none => l

/-- The assets regex `/^[/\\]+(assets[/\\]+)+/` of source line 117: `some r`
when the regex matches and `r` is the string with the matched prefix removed
(`desiredPath.replace(assetsRegex, "")`), `none` when it does not match. -/
def assetsRegexStrip (s : String) : Option String :=
  match s.data with
  | [] => none
  | c :: rest =>
    if isSepChar c then
      match assetsSeg (dropSeps rest) with
      | some r1 => some ⟨assetsRepsGo r1.length r1⟩
      | none => none
    else none

/-- `desiredPath.replace(/^[/\\]+/, "")` (source line 123). -/
def stripLeadingSeps (s : String) : String := ⟨dropSeps s.data⟩

/-- Root directory of the `updater` bundle (source line 92). -/
def updaterRoot (cwd resourcesPath : String) : String :=
  posixResolve cwd [resourcesPath, "app.asar/.vite/renderer/windows/updater"]

/-- Root directory of the `main` bundle (source line 97). -/
def mainRoot (cwd resourcesPath : String) : String :=
  posixResolve cwd [resourcesPath, "app.asar/.vite/renderer/windows/main"]

/-- Root directory of the `titlebar` bundle (source line 102). -/
def titlebarRoot (cwd resourcesPath : String) : String :=
  posixResolve cwd [resourcesPath, "app.asar/.vite/renderer/windows/titlebar"]

/-- Root directory of the `settings` bundle (source line 107). -/
def settingsRoot (cwd resourcesPath : String) : String :=
  posixResolve cwd [resourcesPath, "app.asar/.vite/renderer/windows/settings"]

/-- The shared assets base directory (source line 120). -/
def assetsRoot (cwd resourcesPath : String) : String :=
  posixResolve cwd [resourcesPath, "app.asar/.vite/renderer/assets"]

/-- The `switch (host)` of source lines 90-110: `none` for an unrecognized
host (`rootPath` stays `undefined`). -/
def rootFor (cwd resourcesPath host : String) : Option String :=
  match host with
  | "updater" => some (updaterRoot cwd resourcesPath)
  | "main" => some (mainRoot cwd resourcesPath)
  | "titlebar" => some (titlebarRoot cwd resourcesPath)
  | "settings" => some (settingsRoot cwd resourcesPath)
  | _ => none

/-- Index substitution of source line 115: a pathname of exactly `/` becomes
`/index.html`. -/
def indexSubst (pathname : String) : String :=
  if pathname = "/" then "/index.html" else pathname

/-- The Asset Resolver part of `handleYTMDAppProtocol` (source lines 89-123):
host table, index substitution, assets rewrite, leading separator strip.
Returns the root (still optional: `undefined` survives an unknown host unless
the assets rewrite replaced it) and the final requested path. -/
def resolveRequest (cwd resourcesPath host pathname : String) : Option String × String :=
  let rootPath0 := rootFor cwd resourcesPath host
  let d1 := indexSubst pathname
  let (rootPath1, d2) :=
    match assetsRegexStrip d1 with
    | some rest => (some (assetsRoot cwd resourcesPath), rest)
    | none => (rootPath0, d1)
  (rootPath1, stripLeadingSeps d2)

/-- Observable outcome of one `handleYTMDAppProtocol` request: a propagated
JavaScript exception (rejected promise), an explicit `Response`, or a
delegation to `net.fetch` on the `pathToFileURL` of the given local path. -/
inductive JsOutcome where
  | thrown : JsOutcome
  | response (status : Nat) (contentType body : String) : JsOutcome
  | fetch (filePath : String) : JsOutcome
  deriving DecidableEq

/-- `ProtocolManager.handleYTMDAppProtocol` (source lines 87-137).  When the
resolved root is `undefined`, the call `path.resolve(rootPath, requestedPath)`
inside `isSafePath` throws a `TypeError` (the requested path has had its
leading separators stripped, so the resolve loop always reaches and validates
the `undefined` first argument). -/
def handleYTMDAppProtocol (cwd resourcesPath host pathname : String) : JsOutcome :=
  match resolveRequest cwd resourcesPath host pathname with
  | (none, _) => JsOutcome.thrown
  | (some rootPath, desiredPath) =>
    if isSafePath cwd rootPath desiredPath then
      JsOutcome.fetch (posixResolve cwd [rootPath, desiredPath])
    else JsOutcome.response 403 "text/html" "Policy Violation"

/-- Find the first occurrence of `sep` in a character list: `some (pre1,
post)` splits around the occurrence, scanning left to right (the occurrence
search of JavaScript `String.prototype.split`). -/
def breakOn (sep : List Char) : List Char → Option (List Char × List Char)
  | [] => none
  | c :: rest =>
    if sep.isPrefixOf (c :: rest) then some ([], (c :: rest).drop sep.length)
    else
      match breakOn sep rest with
      | some (pre1, post) => some (c :: pre1, post)
      | none => none

/-- The characters of the scheme separator `://`. -/
def protoSepChars : List Char := [':', '/', '/']

/-- `s.split(sep)[1]` of JavaScript for a nonempty separator: the piece
between the first occurrence and the following occurrence or the end;
`none` when there is no occurrence (the JavaScript index is `undefined`). -/
def jsSplitSecond (sep : List Char) (s : String) : Option String :=
  match breakOn sep s.data with
  | none => none
  | some (_, post) =>
    match breakOn sep post with
    | none => some ⟨post⟩
    | some (pre1, _) => some ⟨pre1⟩

/-- JavaScript `s.split("/")`: all pieces, empty pieces kept. -/
def splitSlashAux : List Char → List Char → List String
  | cur, [] => [⟨cur.reverse⟩]
  | cur, c :: rest =>
    if c = '/' then ⟨cur.reverse⟩ :: splitSlashAux [] rest
    else splitSlashAux (c :: cur) rest

/-- JavaScript `s.split("/")` on a string. -/
def splitSlash (s : String) : List String := splitSlashAux [] s.data

/-- Observable outcome of one `handleYTMDProtocol` dispatch: either exactly
one `remoteControl:execute navigate` command with a `watchEndpoint` holding
`videoId` and an optional `playlistId` (`paths[2]` is `undefined` when
absent), or nothing at all. -/
inductive DispatchResult where
  | sent (videoId : String) (playlistId : Option String) : DispatchResult
  | noop : DispatchResult
  deriving DecidableEq

/-- `ProtocolManager.handleYTMDProtocol` (source lines 56-85).  The readiness
wait (`await ytmViewManager.ready()`) suspends but does not change which
command is sent, so the pure model carries only the `isInitialized()` flag. -/
def handleYTMDProtocol (ytmViewInitialized : Bool) (url : String) : DispatchResult :=
  match jsSplitSecond protoSepChars url with
  | none => DispatchResult.noop
  | some urlPaths =>
    if urlPaths = "" then DispatchResult.noop
    else
      let paths := splitSlash urlPaths
      if 0 < paths.length then
        match paths with
        | [] => DispatchResult.noop
        | verb :: rest =>
          if verb = "play" then
            match rest with
            | videoId :: rest2 =>
              if ytmViewInitialized then DispatchResult.sent videoId rest2.head?
              else DispatchResult.noop
            | [] => DispatchResult.noop
          else DispatchResult.noop
      else DispatchResult.noop

/-- A well-formed path segment: nonempty, free of separators, and not one of
the special `.` and `..` markers.  Normalized absolute paths are exactly the
paths whose segment lists satisfy this predicate. -/
def GoodSeg (s : String) : Prop :=
  s.data ≠ [] ∧ (∀ ch ∈ s.data, ch ≠ '/') ∧ s ≠ "." ∧ s ≠ ".."

instance (s : String) : Decidable (GoodSeg s) := by
  unfold GoodSeg; infer_instance

/-! ### Segment infrastructure lemmas -/

theorem chSegsAux_append (A : List Char) : ∀ (cur B : List Char),
    chSegsAux cur (A ++ '/' :: B) = chSegsAux cur A ++ chSegsAux [] B := by
  induction A with
  | nil =>
    intro cur B
    simp only [List.nil_append, chSegsAux]
    by_cases h : cur = [] <;> simp [h]
  | cons c A ih =>
    intro cur B
    simp only [List.cons_append, chSegsAux]
    by_cases h : c = '/'
    · subst h
      by_cases h2 : cur = [] <;> simp [h2, ih]
    · simp [h, ih]

theorem chSegsAux_good (l : List Char) : ∀ (cur : List Char), (∀ c ∈ cur, c ≠ '/') →
    ∀ s ∈ chSegsAux cur l, s.data ≠ [] ∧ ∀ ch ∈ s.data, ch ≠ '/' := by
  induction l with
  | nil =>
    intro cur hcur s hs
    simp only [chSegsAux] at hs
    by_cases h : cur = []
    · simp [h] at hs
    · rw [if_neg h] at hs
      rw [List.mem_singleton] at hs
      subst hs
      refine ⟨by simpa using h, ?_⟩
      intro ch hch
      exact hcur ch (by simpa using hch)
  | cons c rest ih =>
    intro cur hcur s hs
    simp only [chSegsAux] at hs
    by_cases h : c = '/'
    · rw [if_pos h] at hs
      by_cases h2 : cur = []
      · rw [if_pos h2] at hs
        exact ih [] (by simp) s hs
      · rw [if_neg h2] at hs
        rcases List.mem_cons.mp hs with h3 | h3
        · subst h3
          refine ⟨by simpa using h2, ?_⟩
          intro ch hch
          exact hcur ch (by simpa using hch)
        · exact ih [] (by simp) s h3
    · rw [if_neg h] at hs
      refine ih (c :: cur) ?_ s hs
      intro x hx
      rcases List.mem_cons.mp hx with h4 | h4
      · subst h4; exact h
      · exact hcur x h4

theorem chSegsAux_single (w : List Char) : ∀ (cur : List Char), (∀ c ∈ w, c ≠ '/') →
    cur.reverse ++ w ≠ [] → chSegsAux cur w = [⟨cur.reverse ++ w⟩] := by
  induction w with
  | nil =>
    intro cur _ hne
    simp only [chSegsAux]
    rw [if_neg]
    · simp
    · intro h
      apply hne
      simp [h]
  | cons c w ih =>
    intro cur hw hne
    simp only [chSegsAux]
    rw [if_neg (hw c (by simp))]
    rw [ih (c :: cur) (fun x hx => hw x (by simp [hx])) (by simp)]
    simp

theorem chSegs_joinCh (TS : List String)
    (h : ∀ s ∈ TS, s.data ≠ [] ∧ ∀ ch ∈ s.data, ch ≠ '/') :
    chSegsAux [] (joinCh TS) = TS := by
  induction TS with
  | nil => rfl
  | cons s rest ih =>
    cases rest with
    | nil =>
      have hs := h s (by simp)
      show chSegsAux [] s.data = [s]
      rw [chSegsAux_single s.data [] hs.2 (by simpa using hs.1)]
      simp
    | cons t rest2 =>
      have hs := h s (by simp)
      show chSegsAux [] (s.data ++ '/' :: joinCh (t :: rest2)) = s :: t :: rest2
      rw [chSegsAux_append]
      rw [chSegsAux_single s.data [] hs.2 (by simpa using hs.1)]
      rw [ih (fun x hx => h x (by simp [hx]))]
      simp

theorem normStack_append (ab : Bool) (st A B : List String) :
    normStack ab st (A ++ B) = normStack ab (normStack ab st A) B := by
  simp [normStack]

theorem normStack_good (L : List String) : ∀ (st : List String),
    (∀ s ∈ L, s.data ≠ [] ∧ ∀ ch ∈ s.data, ch ≠ '/') →
    (∀ s ∈ st, GoodSeg s) → ∀ s ∈ normStack false st L, GoodSeg s := by
  induction L with
  | nil =>
    intro st _ hst s hs
    exact hst s hs
  | cons x L ih =>
    intro st hL hst s hs
    rw [show normStack false st (x :: L) = normStack false (normStep false st x) L from rfl] at hs
    refine ih (normStep false st x) (fun t ht => hL t (by simp [ht])) ?_ s hs
    intro t ht
    simp only [normStep] at ht
    by_cases h1 : x = "" ∨ x = "."
    · rw [if_pos h1] at ht
      exact hst t ht
    · rw [if_neg h1] at ht
      by_cases h2 : x = ".."
      · rw [if_pos h2] at ht
        cases st with
        | nil => simp at ht
        | cons top rest =>
          by_cases h3 : top = ".."
          · simp [h3] at ht ⊢
            exact hst t (by simp [h3, List.mem_cons]; exact ht)
          · simp [h3] at ht
            exact hst t (by simp [ht])
      · rw [if_neg h2] at ht
        rcases List.mem_cons.mp ht with h4 | h4
        · subst h4
          push_neg at h1
          exact ⟨(hL t (by simp)).1, (hL t (by simp)).2, h1.2, h2⟩
        · exact hst t h4

theorem normStack_noop (ab : Bool) (L : List String) : ∀ (st : List String),
    (∀ s ∈ L, GoodSeg s) → normStack ab st L = L.reverse ++ st := by
  induction L with
  | nil =>
    intro st _
    simp [normStack]
  | cons x L ih =>
    intro st hL
    have hx := hL x (by simp)
    have hstep : normStep ab st x = x :: st := by
      unfold normStep
      rw [if_neg, if_neg (hx.2.2.2)]
      push_neg
      refine ⟨?_, hx.2.2.1⟩
      intro he
      exact hx.1 (by simp [he])
    rw [show normStack ab st (x :: L) = normStack ab (normStep ab st x) L from rfl]
    rw [hstep, ih (x :: st) (fun t ht => hL t (by simp [ht]))]
    simp

theorem cpl_nil_right (l : List String) : cpl l [] = 0 := by
  cases l <;> rfl

theorem cpl_self (l : List String) : cpl l l = l.length := by
  induction l with
  | nil => rfl
  | cons a l ih => simp [cpl, ih]

theorem cpl_append (G : List String) : ∀ (X Y : List String),
    cpl (G ++ X) (G ++ Y) = G.length + cpl X Y := by
  induction G with
  | nil => intro X Y; simp
  | cons g G ih =>
    intro X Y
    have h : cpl (g :: G ++ X) (g :: G ++ Y) = cpl (G ++ X) (G ++ Y) + 1 := by
      simp [cpl]
    rw [h, ih]
    simp
    omega

theorem relSegs_self (l : List String) : relSegs l l = [] := by
  simp [relSegs, cpl_self]

theorem relSegs_climb (fs ts : List String) (h : cpl fs ts < fs.length) :
    ∃ r, relSegs fs ts = ".." :: r := by
  obtain ⟨n, hn⟩ : ∃ n, fs.length - cpl fs ts = n + 1 :=
    ⟨fs.length - cpl fs ts - 1, by omega⟩
  refine ⟨List.replicate n ".." ++ ts.drop (cpl fs ts), ?_⟩
  unfold relSegs
  rw [hn, List.replicate_succ, List.cons_append]

theorem safeCond_empty : safeCond ⟨joinCh []⟩ = false := rfl

theorem safeCond_dotdot (r : List String) : safeCond ⟨joinCh (".." :: r)⟩ = false := by
  have h : jsStartsWith ⟨joinCh (".." :: r)⟩ ".." = true := by
    cases r with
    | nil => rfl
    | cons t r2 =>
      show List.isPrefixOf "..".data (("..").data ++ '/' :: joinCh (t :: r2)) = true
      simp [List.isPrefixOf]
  simp [safeCond, h]

theorem joinCh_ne_nil (cs : List String) (h : ∀ s ∈ cs, GoodSeg s) (hne : cs ≠ []) :
    joinCh cs ≠ [] := by
  cases cs with
  | nil => simp at hne
  | cons s rest =>
    cases rest with
    | nil => exact (h s (by simp)).1
    | cons t r2 => simp [joinCh]

theorem pIsAbs_joinCh (cs : List String) (h : ∀ s ∈ cs, GoodSeg s) :
    pIsAbs ⟨joinCh cs⟩ = false := by
  cases cs with
  | nil => rfl
  | cons s rest =>
    have hs := h s (by simp)
    obtain ⟨d, r, hd⟩ : ∃ d r, s.data = d :: r := by
      cases hdata : s.data with
      | nil => exact absurd hdata hs.1
      | cons d r => exact ⟨d, r, rfl⟩
    have hdne : d ≠ '/' := hs.2.1 d (by simp [hd])
    cases rest with
    | nil =>
      show pIsAbs ⟨s.data⟩ = false
      rw [hd]
      simp [pIsAbs, hdne]
    | cons t r2 =>
      show pIsAbs ⟨s.data ++ '/' :: joinCh (t :: r2)⟩ = false
      rw [hd]
      simp [pIsAbs, hdne]

/-! ### Resolve and relative lemmas -/

theorem pIsAbs_iff (s : String) : pIsAbs s = true ↔ ∃ cs, s.data = '/' :: cs := by
  obtain ⟨d⟩ := s
  cases d with
  | nil => simp [pIsAbs]
  | cons c cs =>
    show (c == '/') = true ↔ _
    simp [List.cons_eq_cons]

theorem rawRev_abs (p : String) (cs : List Char) (hp : p.data = '/' :: cs)
    (rest : List String) : rawRev (p :: rest) = (p.data ++ ['/'], true) := by
  simp [rawRev, hp]

theorem rawRev_rel (p : String) (c : Char) (cs : List Char) (hp : p.data = c :: cs)
    (hc : c ≠ '/') (rest : List String) :
    rawRev (p :: rest) = ((rawRev rest).1 ++ p.data ++ ['/'], (rawRev rest).2) := by
  rcases hr : rawRev rest with ⟨acc, ab⟩
  simp [rawRev, hp, hc, hr]

theorem rawRev_empty (p : String) (hp : p.data = []) (rest : List String) :
    rawRev (p :: rest) = rawRev rest := by
  simp [rawRev, hp]

theorem chSegsAux_trailing (A cur : List Char) :
    chSegsAux cur (A ++ ['/']) = chSegsAux cur A := by
  have h := chSegsAux_append A cur []
  rw [show chSegsAux ([] : List Char) ([] : List Char) = [] from rfl, List.append_nil] at h
  exact h

theorem chSegsAux_slash_cons (X : List Char) : chSegsAux [] ('/' :: X) = chSegsAux [] X := by
  simp [chSegsAux]

theorem resolve_one_abs (cwd R : String) (hR : pIsAbs R = true) :
    posixResolve cwd [R] = ⟨'/' :: joinCh (normSegs false (chSegsAux [] R.data))⟩ := by
  obtain ⟨cs, hcs⟩ := (pIsAbs_iff R).mp hR
  have h1 : rawRev ([R].reverse ++ [cwd]) = (R.data ++ ['/'], true) := by
    simpa using rawRev_abs R cs hcs [cwd]
  unfold posixResolve
  rw [h1]
  simp only [Bool.not_true, if_pos]
  rw [chSegsAux_trailing]

theorem resolve_two_abs (cwd R c : String) (hR : pIsAbs R = true) (hc : pIsAbs c = false) :
    posixResolve cwd [R, c] =
      ⟨'/' :: joinCh (normSegs false (chSegsAux [] R.data ++ chSegsAux [] c.data))⟩ := by
  obtain ⟨cs, hcs⟩ := (pIsAbs_iff R).mp hR
  have hrev : [R, c].reverse ++ [cwd] = [c, R, cwd] := by simp
  cases hcd : c.data with
  | nil =>
    have h1 : rawRev ([R, c].reverse ++ [cwd]) = (R.data ++ ['/'], true) := by
      rw [hrev, rawRev_empty c hcd [R, cwd], rawRev_abs R cs hcs [cwd]]
    unfold posixResolve
    rw [h1]
    simp only [Bool.not_true, if_pos]
    rw [chSegsAux_trailing]
    rw [show chSegsAux ([] : List Char) ([] : List Char) = [] from rfl, List.append_nil]
  | cons d ds =>
    have hd : d ≠ '/' := by
      intro he
      rw [show pIsAbs c = (d == '/') from by rw [pIsAbs, hcd], he] at hc
      simp at hc
    have h1 : rawRev ([R, c].reverse ++ [cwd]) = ((R.data ++ ['/']) ++ c.data ++ ['/'], true) := by
      rw [hrev, rawRev_rel c d ds hcd hd [R, cwd], rawRev_abs R cs hcs [cwd]]
    unfold posixResolve
    rw [h1]
    simp only [Bool.not_true, if_pos]
    have h2 : (R.data ++ ['/']) ++ c.data ++ ['/'] = R.data ++ '/' :: (c.data ++ ['/']) := by
      simp
    rw [h2, chSegsAux_append, chSegsAux_trailing, hcd]

theorem resolve_abs_snd (cwd R c : String) (hc : pIsAbs c = true) :
    posixResolve cwd [R, c] = ⟨'/' :: joinCh (normSegs false (chSegsAux [] c.data))⟩ := by
  obtain ⟨cs, hcs⟩ := (pIsAbs_iff c).mp hc
  have hrev : [R, c].reverse ++ [cwd] = [c, R, cwd] := by simp
  have h1 : rawRev ([R, c].reverse ++ [cwd]) = (c.data ++ ['/'], true) := by
    rw [hrev, rawRev_abs c cs hcs [R, cwd]]
  unfold posixResolve
  rw [h1]
  simp only [Bool.not_true, if_pos]
  rw [chSegsAux_trailing]

theorem resolve_fixed (cwd : String) (TS : List String) (h : ∀ s ∈ TS, GoodSeg s) :
    posixResolve cwd [(⟨'/' :: joinCh TS⟩ : String)] = ⟨'/' :: joinCh TS⟩ := by
  have habs : pIsAbs (⟨'/' :: joinCh TS⟩ : String) = true := by
    rw [pIsAbs]
    simp
  rw [resolve_one_abs cwd _ habs]
  have h1 : chSegsAux [] ((⟨'/' :: joinCh TS⟩ : String).data) = TS := by
    rw [show (⟨'/' :: joinCh TS⟩ : String).data = '/' :: joinCh TS from rfl]
    rw [chSegsAux_slash_cons]
    exact chSegs_joinCh TS (fun s hs => ⟨(h s hs).1, (h s hs).2.1⟩)
  rw [h1]
  rw [show normSegs false TS = (normStack false [] TS).reverse from rfl,
    normStack_noop false TS [] h]
  simp

theorem relative_to_resolved (cwd R : String) (TS : List String) (hR : pIsAbs R = true)
    (hTS : ∀ s ∈ TS, GoodSeg s) :
    posixRelative cwd R ⟨'/' :: joinCh TS⟩ =
      ⟨joinCh (relSegs (normSegs false (chSegsAux [] R.data)) TS)⟩ := by
  have hTS2 : ∀ s ∈ TS, s.data ≠ [] ∧ ∀ ch ∈ s.data, ch ≠ '/' :=
    fun s hs => ⟨(hTS s hs).1, (hTS s hs).2.1⟩
  have hFSgood : ∀ s ∈ normSegs false (chSegsAux [] R.data), GoodSeg s := by
    intro s hs
    exact normStack_good _ [] (chSegsAux_good _ [] (by simp)) (by simp) s
      (by simpa [normSegs] using hs)
  have hchTS : chSegsAux [] ('/' :: joinCh TS) = TS := by
    rw [chSegsAux_slash_cons]
    exact chSegs_joinCh TS hTS2
  have hempty : ("" : String) = ⟨joinCh []⟩ := by decide
  unfold posixRelative
  by_cases h0 : R = ⟨'/' :: joinCh TS⟩
  · rw [if_pos h0]
    have hdata : R.data = '/' :: joinCh TS := by rw [h0]
    have hFS : normSegs false (chSegsAux [] R.data) = TS := by
      rw [hdata, hchTS]
      rw [show normSegs false TS = (normStack false [] TS).reverse from rfl,
        normStack_noop false TS [] hTS]
      simp
    rw [hFS, relSegs_self]
    exact hempty
  · rw [if_neg h0]
    rw [resolve_one_abs cwd R hR, resolve_fixed cwd TS hTS]
    set FS := normSegs false (chSegsAux [] R.data) with hFSdef
    have hchFS : chSegsAux [] ('/' :: joinCh FS) = FS := by
      rw [chSegsAux_slash_cons]
      exact chSegs_joinCh FS (fun s hs => ⟨(hFSgood s hs).1, (hFSgood s hs).2.1⟩)
    by_cases h1 : (⟨'/' :: joinCh FS⟩ : String) = ⟨'/' :: joinCh TS⟩
    · rw [if_pos h1]
      have hdd : joinCh FS = joinCh TS := by
        have h2 : '/' :: joinCh FS = '/' :: joinCh TS := congrArg String.data h1
        exact List.cons.inj h2 |>.2
      have hFT : FS = TS := by
        calc FS = chSegsAux [] (joinCh FS) :=
              (chSegs_joinCh FS (fun s hs => ⟨(hFSgood s hs).1, (hFSgood s hs).2.1⟩)).symm
          _ = chSegsAux [] (joinCh TS) := by rw [hdd]
          _ = TS := chSegs_joinCh TS hTS2
      rw [hFT, relSegs_self]
      exact hempty
    · rw [if_neg h1]
      rw [show (⟨'/' :: joinCh FS⟩ : String).data = '/' :: joinCh FS from rfl]
      rw [show (⟨'/' :: joinCh TS⟩ : String).data = '/' :: joinCh TS from rfl]
      rw [hchFS, hchTS]

theorem isSafePath_eq_cond (cwd R c : String) :
    isSafePath cwd R c = safeCond (posixRelative cwd R (posixResolve cwd [R, c])) := rfl

theorem isSafePath_eq_segs (cwd R c : String) (hR : pIsAbs R = true) (hc : pIsAbs c = false) :
    isSafePath cwd R c = safeCond ⟨joinCh (relSegs (normSegs false (chSegsAux [] R.data))
      (normSegs false (chSegsAux [] R.data ++ chSegsAux [] c.data)))⟩ := by
  have hTSgood : ∀ s ∈ normSegs false (chSegsAux [] R.data ++ chSegsAux [] c.data),
      GoodSeg s := by
    intro s hs
    refine normStack_good _ [] ?_ (by simp) s (by simpa [normSegs] using hs)
    intro t ht
    rcases List.mem_append.mp ht with h | h
    · exact chSegsAux_good _ [] (by simp) t h
    · exact chSegsAux_good _ [] (by simp) t h
  rw [isSafePath_eq_cond, resolve_two_abs cwd R c hR hc,
    relative_to_resolved cwd R _ hR hTSgood]

theorem isSafePath_eq_segs_abs (cwd R c : String) (hR : pIsAbs R = true)
    (hc : pIsAbs c = true) :
    isSafePath cwd R c = safeCond ⟨joinCh (relSegs (normSegs false (chSegsAux [] R.data))
      (normSegs false (chSegsAux [] c.data)))⟩ := by
  have hTSgood : ∀ s ∈ normSegs false (chSegsAux [] c.data), GoodSeg s := by
    intro s hs
    exact normStack_good _ [] (chSegsAux_good _ [] (by simp)) (by simp) s
      (by simpa [normSegs] using hs)
  rw [isSafePath_eq_cond, resolve_abs_snd cwd R c hc,
    relative_to_resolved cwd R _ hR hTSgood]

/-! ### Guard behaviour on traversal and benign inputs -/

theorem isSafe_plain (cwd R c : String) (cs : List String) (hR : pIsAbs R = true)
    (hc : pIsAbs c = false) (hcs : chSegsAux [] c.data = cs)
    (hgood : ∀ s ∈ cs, GoodSeg s) (hne : cs ≠ [])
    (hdd : jsStartsWith ⟨joinCh cs⟩ ".." = false) :
    isSafePath cwd R c = true := by
  rw [isSafePath_eq_segs cwd R c hR hc, hcs]
  have hsplit : normSegs false (chSegsAux [] R.data ++ cs)
      = normSegs false (chSegsAux [] R.data) ++ cs := by
    rw [show normSegs false (chSegsAux [] R.data ++ cs)
        = (normStack false [] (chSegsAux [] R.data ++ cs)).reverse from rfl]
    rw [normStack_append, normStack_noop false cs _ hgood]
    simp [normSegs]
  rw [hsplit]
  have hcpl : cpl (normSegs false (chSegsAux [] R.data))
      (normSegs false (chSegsAux [] R.data) ++ cs)
      = (normSegs false (chSegsAux [] R.data)).length := by
    have h := cpl_append (normSegs false (chSegsAux [] R.data)) [] cs
    rw [List.append_nil] at h
    rw [h]
    have hz : cpl [] cs = 0 := by cases cs <;> rfl
    rw [hz]
    simp
  have hrel : relSegs (normSegs false (chSegsAux [] R.data))
      (normSegs false (chSegsAux [] R.data) ++ cs) = cs := by
    unfold relSegs
    rw [hcpl]
    simp [List.drop_left]
  rw [hrel]
  have h1 : (⟨joinCh cs⟩ : String) ≠ "" := by
    intro he
    exact joinCh_ne_nil cs hgood hne (congrArg String.data he)
  simp [safeCond, h1, hdd, pIsAbs_joinCh cs hgood]

theorem isSafe_empty_rejected (cwd R : String) (hR : pIsAbs R = true) :
    isSafePath cwd R "" = false := by
  rw [isSafePath_eq_segs cwd R "" hR (by decide)]
  rw [show chSegsAux [] ("" : String).data = [] from rfl]
  rw [List.append_nil, relSegs_self]
  exact safeCond_empty

/-- Claim C3 counterexample: the claim says the three traversal candidates are
rejected for every absolute root directory, but at the root `/` (and, for the
candidates that climb into `/etc`, at the root `/etc`) the guard accepts them:
the climbed-out path lands back inside the root. -/
theorem c3_counterexample :
    pIsAbs "/" = true ∧ pIsAbs "/etc" = true ∧
    isSafePath "/" "/" "../secret" = true ∧
    isSafePath "/" "/" "../../etc/passwd" = true ∧
    isSafePath "/" "/" "/etc/passwd" = true ∧
    isSafePath "/" "/etc" "../../etc/passwd" = true ∧
    isSafePath "/" "/etc" "/etc/passwd" = true := by decide

/-- Claim C3 (amended): `isSafe(R, "../secret")`, `isSafe(R,
"../../etc/passwd")` and `isSafe(R, "/etc/passwd")` are false for every
absolute root directory `R` whose resolved form is neither the filesystem
root `/` nor `/etc` (an ancestor of the traversal targets); at those two
excluded roots the code accepts some of the candidates. -/
theorem c3_traversal_amended (cwd R : String) (hR : pIsAbs R = true)
    (h1 : posixResolve cwd [R] ≠ "/") (h2 : posixResolve cwd [R] ≠ "/etc") :
    isSafePath cwd R "../secret" = false ∧
    isSafePath cwd R "../../etc/passwd" = false ∧
    isSafePath cwd R "/etc/passwd" = false := by
  obtain ⟨a, rest, hrseq⟩ : ∃ a rest, normStack false [] (chSegsAux [] R.data) = a :: rest := by
    cases h : normStack false [] (chSegsAux [] R.data) with
    | nil =>
      exfalso
      apply h1
      rw [resolve_one_abs cwd R hR]
      rw [show normSegs false (chSegsAux [] R.data)
          = (normStack false [] (chSegsAux [] R.data)).reverse from rfl, h]
      decide
    | cons x xs => exact ⟨x, xs, rfl⟩
  have hgood : ∀ s ∈ (a :: rest), GoodSeg s := by
    rw [← hrseq]
    exact normStack_good _ [] (chSegsAux_good _ [] (by simp)) (by simp)
  have ha : a ≠ ".." := (hgood a (by simp)).2.2.2
  have hFS2 : normSegs false (chSegsAux [] R.data) = rest.reverse ++ [a] := by
    rw [show normSegs false (chSegsAux [] R.data)
        = (normStack false [] (chSegsAux [] R.data)).reverse from rfl, hrseq]
    simp
  have hnotetc : ¬(rest = [] ∧ a = "etc") := by
    rintro ⟨h3, h4⟩
    apply h2
    rw [resolve_one_abs cwd R hR, hFS2, h3, h4]
    decide
  have hA : isSafePath cwd R "../secret" = false := by
    have hsegA : chSegsAux [] ("../secret" : String).data = ["..", "secret"] := by decide
    rw [isSafePath_eq_segs cwd R "../secret" hR (by decide), hsegA]
    have hTSA : normSegs false (chSegsAux [] R.data ++ ["..", "secret"])
        = rest.reverse ++ ["secret"] := by
      rw [show normSegs false (chSegsAux [] R.data ++ ["..", "secret"])
          = (normStack false [] (chSegsAux [] R.data ++ ["..", "secret"])).reverse from rfl]
      rw [normStack_append, hrseq]
      rw [show normStack false (a :: rest) ["..", "secret"]
          = normStep false (normStep false (a :: rest) "..") "secret" from rfl]
      rw [show normStep false (a :: rest) ".." = rest from by simp [normStep, ha]]
      rw [show normStep false rest "secret" = "secret" :: rest from by simp [normStep]]
      simp
    rw [hTSA, hFS2]
    by_cases hae : a = "secret"
    · rw [hae, relSegs_self]
      exact safeCond_empty
    · have hk : cpl (rest.reverse ++ [a]) (rest.reverse ++ ["secret"])
          = rest.reverse.length := by
        rw [cpl_append]
        simp [cpl, hae]
      have hlt : cpl (rest.reverse ++ [a]) (rest.reverse ++ ["secret"])
          < (rest.reverse ++ [a]).length := by
        rw [hk]
        simp
      obtain ⟨r, hr⟩ := relSegs_climb _ _ hlt
      rw [hr]
      exact safeCond_dotdot r
  have hB : isSafePath cwd R "../../etc/passwd" = false := by
    have hsegB : chSegsAux [] ("../../etc/passwd" : String).data
        = ["..", "..", "etc", "passwd"] := by decide
    rw [isSafePath_eq_segs cwd R "../../etc/passwd" hR (by decide), hsegB]
    cases rest with
    | nil =>
      have haetc : a ≠ "etc" := fun h => hnotetc ⟨rfl, h⟩
      have hTSB : normSegs false (chSegsAux [] R.data ++ ["..", "..", "etc", "passwd"])
          = ["etc", "passwd"] := by
        rw [show normSegs false (chSegsAux [] R.data ++ ["..", "..", "etc", "passwd"])
            = (normStack false [] (chSegsAux [] R.data
                ++ ["..", "..", "etc", "passwd"])).reverse from rfl]
        rw [normStack_append, hrseq]
        rw [show normStack false [a] ["..", "..", "etc", "passwd"]
            = normStep false (normStep false (normStep false
                (normStep false [a] "..") "..") "etc") "passwd" from rfl]
        rw [show normStep false [a] ".." = [] from by simp [normStep, ha]]
        rw [show normStep false ([] : List String) ".." = [] from by simp [normStep]]
        rw [show normStep false ([] : List String) "etc" = ["etc"] from by simp [normStep]]
        rw [show normStep false ["etc"] "passwd" = ["passwd", "etc"] from by simp [normStep]]
        decide
      rw [hTSB, hFS2]
      simp only [List.reverse_nil, List.nil_append]
      have hk : cpl [a] ["etc", "passwd"] = 0 := by simp [cpl, haetc]
      have hlt : cpl [a] ["etc", "passwd"] < [a].length := by
        rw [hk]
        simp
      obtain ⟨r, hr⟩ := relSegs_climb _ _ hlt
      rw [hr]
      exact safeCond_dotdot r
    | cons b rest2 =>
      have hb : b ≠ ".." := (hgood b (by simp)).2.2.2
      have hTSB : normSegs false (chSegsAux [] R.data ++ ["..", "..", "etc", "passwd"])
          = rest2.reverse ++ ["etc", "passwd"] := by
        rw [show normSegs false (chSegsAux [] R.data ++ ["..", "..", "etc", "passwd"])
            = (normStack false [] (chSegsAux [] R.data
                ++ ["..", "..", "etc", "passwd"])).reverse from rfl]
        rw [normStack_append, hrseq]
        rw [show normStack false (a :: b :: rest2) ["..", "..", "etc", "passwd"]
            = normStep false (normStep false (normStep false
                (normStep false (a :: b :: rest2) "..") "..") "etc") "passwd" from rfl]
        rw [show normStep false (a :: b :: rest2) ".." = b :: rest2 from by
          simp [normStep, ha]]
        rw [show normStep false (b :: rest2) ".." = rest2 from by simp [normStep, hb]]
        rw [show normStep false rest2 "etc" = "etc" :: rest2 from by simp [normStep]]
        rw [show normStep false ("etc" :: rest2) "passwd" = "passwd" :: "etc" :: rest2 from by
          simp [normStep]]
        simp
      have hFS3 : normSegs false (chSegsAux [] R.data) = rest2.reverse ++ [b, a] := by
        rw [hFS2]
        simp
      rw [hTSB, hFS3]
      by_cases hbe : b = "etc"
      · by_cases hap : a = "passwd"
        · rw [hbe, hap, relSegs_self]
          exact safeCond_empty
        · have hk : cpl (rest2.reverse ++ [b, a]) (rest2.reverse ++ ["etc", "passwd"])
              = rest2.reverse.length + 1 := by
            rw [cpl_append]
            simp [cpl, hbe, hap]
          have hlt : cpl (rest2.reverse ++ [b, a]) (rest2.reverse ++ ["etc", "passwd"])
              < (rest2.reverse ++ [b, a]).length := by
            rw [hk]
            simp
          obtain ⟨r, hr⟩ := relSegs_climb _ _ hlt
          rw [hr]
          exact safeCond_dotdot r
      · have hk : cpl (rest2.reverse ++ [b, a]) (rest2.reverse ++ ["etc", "passwd"])
            = rest2.reverse.length := by
          rw [cpl_append]
          simp [cpl, hbe]
        have hlt : cpl (rest2.reverse ++ [b, a]) (rest2.reverse ++ ["etc", "passwd"])
            < (rest2.reverse ++ [b, a]).length := by
          rw [hk]
          simp
        obtain ⟨r, hr⟩ := relSegs_climb _ _ hlt
        rw [hr]
        exact safeCond_dotdot r
  have hC : isSafePath cwd R "/etc/passwd" = false := by
    have hsegC : normSegs false (chSegsAux [] ("/etc/passwd" : String).data)
        = ["etc", "passwd"] := by decide
    rw [isSafePath_eq_segs_abs cwd R "/etc/passwd" hR (by decide), hsegC, hFS2]
    cases hRv : rest.reverse with
    | nil =>
      have hrest : rest = [] := by
        have h := congrArg List.reverse hRv
        simpa using h
      have haetc : a ≠ "etc" := fun h => hnotetc ⟨hrest, h⟩
      simp only [List.nil_append]
      have hk : cpl [a] ["etc", "passwd"] = 0 := by simp [cpl, haetc]
      have hlt : cpl [a] ["etc", "passwd"] < [a].length := by
        rw [hk]
        simp
      obtain ⟨r, hr⟩ := relSegs_climb _ _ hlt
      rw [hr]
      exact safeCond_dotdot r
    | cons f1 r1 =>
      simp only [List.cons_append]
      by_cases hf1 : f1 = "etc"
      · cases r1 with
        | nil =>
          simp only [List.nil_append]
          by_cases hap : a = "passwd"
          · rw [hf1, hap, relSegs_self]
            exact safeCond_empty
          · have hk : cpl [f1, a] ["etc", "passwd"] = 1 := by simp [cpl, hf1, hap]
            have hlt : cpl [f1, a] ["etc", "passwd"] < [f1, a].length := by
              rw [hk]
              simp
            obtain ⟨r, hr⟩ := relSegs_climb _ _ hlt
            rw [hr]
            exact safeCond_dotdot r
        | cons f2 r2 =>
          simp only [List.cons_append]
          have hk : cpl (f1 :: f2 :: (r2 ++ [a])) ["etc", "passwd"] ≤ 2 := by
            by_cases hf2 : f2 = "passwd"
            · simp [cpl, hf1, hf2, cpl_nil_right]
            · simp [cpl, hf1, hf2]
          have hlen : (f1 :: f2 :: (r2 ++ [a])).length = r2.length + 3 := by simp
          have hlt : cpl (f1 :: f2 :: (r2 ++ [a])) ["etc", "passwd"]
              < (f1 :: f2 :: (r2 ++ [a])).length := by omega
          obtain ⟨r, hr⟩ := relSegs_climb _ _ hlt
          rw [hr]
          exact safeCond_dotdot r
      · have hk : cpl (f1 :: (r1 ++ [a])) ["etc", "passwd"] = 0 := by simp [cpl, hf1]
        have hlt : cpl (f1 :: (r1 ++ [a])) ["etc", "passwd"]
            < (f1 :: (r1 ++ [a])).length := by
          rw [hk]
          simp
        obtain ⟨r, hr⟩ := relSegs_climb _ _ hlt
        rw [hr]
        exact safeCond_dotdot r
  exact ⟨hA, hB, hC⟩

theorem c3_witness :
    (pIsAbs "/app" = true ∧ posixResolve "/" ["/app"] ≠ "/" ∧
      posixResolve "/" ["/app"] ≠ "/etc") ∧
    (isSafePath "/" "/app" "../secret" = false ∧
     isSafePath "/" "/app" "../../etc/passwd" = false ∧
     isSafePath "/" "/app" "/etc/passwd" = false) :=
  ⟨⟨by decide, by decide, by decide⟩,
    c3_traversal_amended "/" "/app" (by decide) (by decide) (by decide)⟩

/-- Claim C4: `isSafe(root, candidate)` is a total boolean function that
accepts exactly when the relativized path is non-empty, does not start with
`..` and is not absolute; `index.html` and `assets/app.js` are accepted under
any absolute root, and the empty candidate is rejected. -/
theorem c4_guard_characterization (cwd R c : String) (hR : pIsAbs R = true) :
    (isSafePath cwd R c = true ↔
      (posixRelative cwd R (posixResolve cwd [R, c]) ≠ "" ∧
       jsStartsWith (posixRelative cwd R (posixResolve cwd [R, c])) ".." = false ∧
       pIsAbs (posixRelative cwd R (posixResolve cwd [R, c])) = false)) ∧
    isSafePath cwd R "index.html" = true ∧
    isSafePath cwd R "assets/app.js" = true ∧
    isSafePath cwd R "" = false := by
  refine ⟨?_, ?_, ?_, isSafe_empty_rejected cwd R hR⟩
  · rw [isSafePath_eq_cond]
    unfold safeCond
    simp
    tauto
  · exact isSafe_plain cwd R "index.html" ["index.html"] hR (by decide) (by decide)
      (by decide) (by decide) (by decide)
  · exact isSafe_plain cwd R "assets/app.js" ["assets", "app.js"] hR (by decide)
      (by decide) (by decide) (by decide) (by decide)

theorem c4_witness :
    pIsAbs "/app" = true ∧
    ((isSafePath "/" "/app" "../z" = true ↔
      (posixRelative "/" "/app" (posixResolve "/" ["/app", "../z"]) ≠ "" ∧
       jsStartsWith (posixRelative "/" "/app" (posixResolve "/" ["/app", "../z"])) ".."
         = false ∧
       pIsAbs (posixRelative "/" "/app" (posixResolve "/" ["/app", "../z"])) = false)) ∧
     isSafePath "/" "/app" "index.html" = true ∧
     isSafePath "/" "/app" "assets/app.js" = true ∧
     isSafePath "/" "/app" "" = false) :=
  ⟨by decide, c4_guard_characterization "/" "/app" "../z" (by decide)⟩

/-! ### Router claims -/

/-- Claim C1 (code bug): the router is not total.  For any unrecognized host
whose path does not match the assets prefix, `rootPath` stays `undefined` and
the call `path.resolve(undefined, desiredPath)` inside `isSafePath` throws a
`TypeError` that propagates out of `handleYTMDAppProtocol` as a rejected
promise, contradicting the claim that the worst case is a 403 response or a
dropped command. -/
theorem c1_router_unknown_host_throws (cwd resourcesPath : String) :
    handleYTMDAppProtocol cwd resourcesPath "nothost" "/p" = JsOutcome.thrown := rfl

/-- Claim C2 (code bug): on `(host="bogus", path="/index.html")` resolution
indeed yields no root, but the router then throws a `TypeError` from
`path.resolve(undefined, "index.html")` instead of returning the 403 response
the claim describes. -/
theorem c2_unknown_host_throws (cwd resourcesPath : String) :
    resolveRequest cwd resourcesPath "bogus" "/index.html" = (none, "index.html") ∧
    handleYTMDAppProtocol cwd resourcesPath "bogus" "/index.html" = JsOutcome.thrown :=
  ⟨rfl, rfl⟩

/-- Claim C5: whenever the pathname matches the reserved assets prefix, the
request is rerooted to the shared assets base directory for every host value
(mapped or not), the outcome does not depend on the host, the unknown-host
fault path is never taken, and the request proceeds to the Guard and then
either the 403 response or a fetch under the assets root. -/
theorem c5_assets_reroot (cwd resourcesPath host pathname rest : String)
    (h : assetsRegexStrip pathname = some rest) :
    resolveRequest cwd resourcesPath host pathname
      = (some (assetsRoot cwd resourcesPath), stripLeadingSeps rest) ∧
    handleYTMDAppProtocol cwd resourcesPath host pathname
      = handleYTMDAppProtocol cwd resourcesPath "updater" pathname ∧
    handleYTMDAppProtocol cwd resourcesPath host pathname ≠ JsOutcome.thrown ∧
    (handleYTMDAppProtocol cwd resourcesPath host pathname
        = JsOutcome.response 403 "text/html" "Policy Violation" ∨
     handleYTMDAppProtocol cwd resourcesPath host pathname
        = JsOutcome.fetch (posixResolve cwd [assetsRoot cwd resourcesPath,
            stripLeadingSeps rest])) := by
  have hslash : pathname ≠ "/" := by
    intro he
    rw [he] at h
    rw [show assetsRegexStrip "/" = none from rfl] at h
    cases h
  have hres : ∀ host2, resolveRequest cwd resourcesPath host2 pathname
      = (some (assetsRoot cwd resourcesPath), stripLeadingSeps rest) := by
    intro host2
    simp [resolveRequest, indexSubst, hslash, h]
  have hh : ∀ host2, handleYTMDAppProtocol cwd resourcesPath host2 pathname
      = (if isSafePath cwd (assetsRoot cwd resourcesPath) (stripLeadingSeps rest) then
          JsOutcome.fetch (posixResolve cwd [assetsRoot cwd resourcesPath,
            stripLeadingSeps rest])
        else JsOutcome.response 403 "text/html" "Policy Violation") := by
    intro host2
    unfold handleYTMDAppProtocol
    rw [hres host2]
  refine ⟨hres host, by rw [hh host, hh "updater"], ?_, ?_⟩
  · rw [hh host]
    split <;> simp
  · rw [hh host]
    by_cases hg : isSafePath cwd (assetsRoot cwd resourcesPath) (stripLeadingSeps rest)
    · right
      rw [if_pos hg]
    · left
      rw [if_neg hg]

theorem c5_witness :
    assetsRegexStrip "/assets/a.js" = some "a.js" ∧
    (resolveRequest "/" "/r" "bogus" "/assets/a.js"
        = (some (assetsRoot "/" "/r"), stripLeadingSeps "a.js") ∧
     handleYTMDAppProtocol "/" "/r" "bogus" "/assets/a.js"
        = handleYTMDAppProtocol "/" "/r" "updater" "/assets/a.js" ∧
     handleYTMDAppProtocol "/" "/r" "bogus" "/assets/a.js" ≠ JsOutcome.thrown ∧
     (handleYTMDAppProtocol "/" "/r" "bogus" "/assets/a.js"
         = JsOutcome.response 403 "text/html" "Policy Violation" ∨
      handleYTMDAppProtocol "/" "/r" "bogus" "/assets/a.js"
         = JsOutcome.fetch (posixResolve "/" [assetsRoot "/" "/r",
             stripLeadingSeps "a.js"]))) :=
  ⟨by decide, c5_assets_reroot "/" "/r" "bogus" "/assets/a.js" "a.js" (by decide)⟩

/-- Claim C6: when the host is mapped and the Guard rejects the resolved
root/path pair, the router answers with status 403, header
`Content-Type: text/html` and body exactly `"Policy Violation"`, and never
reaches the file-fetch primitive (the outcome is a `response`, not a
`fetch`). -/
theorem c6_policy_violation_response (cwd resourcesPath host pathname r0 r d : String)
    (hmap : rootFor cwd resourcesPath host = some r0)
    (hres : resolveRequest cwd resourcesPath host pathname = (some r, d))
    (hrej : isSafePath cwd r d = false) :
    handleYTMDAppProtocol cwd resourcesPath host pathname
      = JsOutcome.response 403 "text/html" "Policy Violation" := by
  simp [handleYTMDAppProtocol, hres, hrej]

theorem c6_witness :
    (rootFor "/" "/r" "main" = some (mainRoot "/" "/r") ∧
     resolveRequest "/" "/r" "main" "/../x" = (some (mainRoot "/" "/r"), "../x") ∧
     isSafePath "/" (mainRoot "/" "/r") "../x" = false) ∧
    handleYTMDAppProtocol "/" "/r" "main" "/../x"
      = JsOutcome.response 403 "text/html" "Policy Violation" :=
  ⟨⟨by decide, by decide, by decide⟩,
   c6_policy_violation_response "/" "/r" "main" "/../x" (mainRoot "/" "/r")
     (mainRoot "/" "/r") "../x" (by decide) (by decide) (by decide)⟩

/-- Claim C7: resolving `(host="main", path="/assets/assets/x.js")` strips
every repeated leading separator/`assets` run, yielding the shared assets
base directory as root and `x.js` as path, identical to resolving
`(host="main", path="/assets/x.js")`. -/
theorem c7_assets_idempotent (cwd resourcesPath : String) :
    resolveRequest cwd resourcesPath "main" "/assets/assets/x.js"
      = (some (assetsRoot cwd resourcesPath), "x.js") ∧
    resolveRequest cwd resourcesPath "main" "/assets/assets/x.js"
      = resolveRequest cwd resourcesPath "main" "/assets/x.js" :=
  ⟨rfl, rfl⟩

/-- Claim C10: `(host="settings", path="/")` substitutes `index.html` and the
router fetches `index.html` resolved under the settings bundle root; any
pathname other than `/` is left untouched by the index substitution. -/
theorem c10_index_default (cwd resourcesPath pathname : String) :
    (pathname ≠ "/" → indexSubst pathname = pathname) ∧
    (pIsAbs resourcesPath = true →
      handleYTMDAppProtocol cwd resourcesPath "settings" "/"
        = JsOutcome.fetch (posixResolve cwd [settingsRoot cwd resourcesPath,
            "index.html"])) := by
  constructor
  · intro h
    simp [indexSubst, h]
  · intro habs
    have hroot : pIsAbs (settingsRoot cwd resourcesPath) = true := by
      unfold settingsRoot
      rw [resolve_two_abs cwd resourcesPath "app.asar/.vite/renderer/windows/settings"
        habs (by decide)]
      rfl
    have hres : resolveRequest cwd resourcesPath "settings" "/"
        = (some (settingsRoot cwd resourcesPath), "index.html") := rfl
    have hsafe : isSafePath cwd (settingsRoot cwd resourcesPath) "index.html" = true :=
      isSafe_plain cwd _ "index.html" ["index.html"] hroot (by decide) (by decide)
        (by decide) (by decide) (by decide)
    simp [handleYTMDAppProtocol, hres, hsafe]

theorem c10_witness :
    indexSubst "/a" = "/a" ∧
    handleYTMDAppProtocol "/" "/r" "settings" "/"
      = JsOutcome.fetch (posixResolve "/" [settingsRoot "/" "/r", "index.html"]) :=
  ⟨(c10_index_default "/" "/r" "/a").1 (by decide),
   (c10_index_default "/" "/r" "/a").2 (by decide)⟩

/-! ### Deep-link claims -/

/-- Claim C8: with the UI initialized, the deep link
`ytmd://play/abc123/def456` sends exactly one navigation command with
`videoId = "abc123"` and `playlistId = "def456"`, and `ytmd://play/abc123`
sends one with `playlistId` absent. -/
theorem c8_deep_link_play :
    handleYTMDProtocol true "ytmd://play/abc123/def456"
      = DispatchResult.sent "abc123" (some "def456") ∧
    handleYTMDProtocol true "ytmd://play/abc123" = DispatchResult.sent "abc123" none := by
  decide

/-- Claim C9: the dispatcher sends a navigation command exactly when the URI
has a nonempty remainder after the scheme separator, the first slash segment
is `play`, there are at least two segments, and the view is initialized; in
every other case the result is the no-op outcome (no error, no queueing, no
retry: the model has no other effect). -/
theorem c9_dispatch_iff (ytmViewInitialized : Bool) (url : String) :
    ((∃ v p, handleYTMDProtocol ytmViewInitialized url = DispatchResult.sent v p) ↔
      (∃ up, jsSplitSecond protoSepChars url = some up ∧ up ≠ "" ∧
        (∃ v rest, splitSlash up = "play" :: v :: rest) ∧ ytmViewInitialized = true)) ∧
    ((∃ v p, handleYTMDProtocol ytmViewInitialized url = DispatchResult.sent v p) ∨
      handleYTMDProtocol ytmViewInitialized url = DispatchResult.noop) := by
  constructor
  · cases hsp : jsSplitSecond protoSepChars url with
    | none => simp [handleYTMDProtocol, hsp]
    | some up =>
      by_cases hup : up = ""
      · simp [handleYTMDProtocol, hsp, hup]
      · cases hps : splitSlash up with
        | nil => simp [handleYTMDProtocol, hsp, hup, hps]
        | cons verb rest =>
          by_cases hv : verb = "play"
          · cases rest with
            | nil => simp [handleYTMDProtocol, hsp, hup, hps, hv]
            | cons videoId rest2 =>
              cases ytmViewInitialized with
              | false => simp [handleYTMDProtocol, hsp, hup, hps, hv]
              | true => simp [handleYTMDProtocol, hsp, hup, hps, hv]
          · simp [handleYTMDProtocol, hsp, hup, hps, hv]
  · cases h : handleYTMDProtocol ytmViewInitialized url with
    | sent v p => exact Or.inl ⟨v, p, rfl⟩
    | noop => exact Or.inr rfl
